import Mathlib

/-!
Verification of the core solver of a 2D "stable fluids" simulator
(`simulator.js`).  Fields are embedded as total functions `ℕ → ℕ → ℚ`
(the allocated array is the region `[0, N+1] × [0, N+1]`; the third
array axis of the source is a placeholder of size 1 and every operator
only ever touches slice `k = 1`, so it is collapsed away).  Machine
floats are modelled by exact rationals.  The in-place double loops of
the source become left folds over the row-major list of visited cells,
each step overriding one cell from the current state, which preserves
the Gauss-Seidel (read partially updated neighbors) semantics.
-/

namespace FluidSolver

/-- A scalar field: the value stored at array index `(i, j)` (slice `k = 1`). -/
abbrev Field : Type := ℕ → ℕ → ℚ

/-- Global constant `N_SOLVER_ITERS = 20` from `simulator.js`. -/
def N_SOLVER_ITERS : ℕ := 20

/-- Global constant `BOUNDARY_MIRROR = 0` from `simulator.js`. -/
def BOUNDARY_MIRROR : ℕ := 0

/-- Global constant `BOUNDARY_OPPOSE_X = 1` from `simulator.js`. -/
def BOUNDARY_OPPOSE_X : ℕ := 1

/-- Global constant `BOUNDARY_OPPOSE_Y = 2` from `simulator.js`. -/
def BOUNDARY_OPPOSE_Y : ℕ := 2

/-- The single-cell array store `X[i][j][1] = v`. -/
def updCell (f : Field) (i j : ℕ) (v : ℚ) : Field :=
  fun a b => if a = i ∧ b = j then v else f a b

/-- Row-major list of cells visited by a double loop
`for s in [0,nx) for t in [0,ny)`, the visited cell being `(ox+s, oy+t)`. -/
def gridCells (ox oy nx ny : ℕ) : List (ℕ × ℕ) :=
  (List.range nx).flatMap (fun s => (List.range ny).map (fun t => (ox + s, oy + t)))

/-- The cells visited by the active-region loops
`for i=1..Nx for j=1..Ny` of the source. -/
def activeCells (Nx Ny : ℕ) : List (ℕ × ℕ) := gridCells 1 1 Nx Ny

/-- The cells visited by the whole-array loops
`for i=0..Nx+1 for j=0..Ny+1` of `addSource`. -/
def allCells (Nx Ny : ℕ) : List (ℕ × ℕ) := gridCells 0 0 (Nx + 2) (Ny + 2)

/-- An in-place cell-by-cell pass: each visited cell is overwritten with
`g` applied to the current (partially updated) state, in list order.
This is the translation of the source's in-place double loops. -/
def sweep (g : Field → ℕ → ℕ → ℚ) (l : List (ℕ × ℕ)) (c : Field) : Field :=
  l.foldl (fun c ij => updCell c ij.1 ij.2 (g c ij.1 ij.2)) c

/-- Strict row-major (lexicographic) order on cell coordinates. -/
def lexLt (p q : ℕ × ℕ) : Prop := p.1 < q.1 ∨ (p.1 = q.1 ∧ p.2 < q.2)

/-- One iteration of the left/right-edge loop of `setBoundary`
(`X[0][j] = ±X[1][j]; X[edgeX][j] = ±X[lastX][j]` with `j = t + 1`). -/
def colStep (Nx mode : ℕ) (c : Field) (t : ℕ) : Field :=
  let j := t + 1
  let c1 := updCell c 0 j (if mode = BOUNDARY_OPPOSE_X then -(c 1 j) else c 1 j)
  updCell c1 (Nx + 1) j (if mode = BOUNDARY_OPPOSE_X then -(c1 Nx j) else c1 Nx j)

/-- The left/right-edge loop of `setBoundary`: `for j = 1..n`. -/
def colLoop (Nx mode n : ℕ) (c0 : Field) : Field :=
  (List.range n).foldl (colStep Nx mode) c0

/-- One iteration of the top/bottom-edge loop of `setBoundary`
(`X[i][0] = ±X[i][1]; X[i][edgeY] = ±X[i][lastY]` with `i = t + 1`). -/
def rowStep (Ny mode : ℕ) (c : Field) (t : ℕ) : Field :=
  let i := t + 1
  let c1 := updCell c i 0 (if mode = BOUNDARY_OPPOSE_Y then -(c i 1) else c i 1)
  updCell c1 i (Ny + 1) (if mode = BOUNDARY_OPPOSE_Y then -(c1 i Ny) else c1 i Ny)

/-- The top/bottom-edge loop of `setBoundary`: `for i = 1..n`. -/
def rowLoop (Ny mode n : ℕ) (c0 : Field) : Field :=
  (List.range n).foldl (rowStep Ny mode) c0

/-- `setBoundary(X, mode)` from `simulator.js` (the JS default argument
for `mode` is `BOUNDARY_MIRROR`; callers that omit it are translated by
passing `BOUNDARY_MIRROR` explicitly): fill the left/right border
columns, then the top/bottom border rows, then set the four corners to
the averages of their two adjacent edge cells, in source order. -/
def setBoundary (Nx Ny mode : ℕ) (X : Field) : Field :=
  let X2 := rowLoop Ny mode Nx (colLoop Nx mode Ny X)
  let X3 := updCell X2 0 0 ((1/2) * (X2 1 0 + X2 0 1))
  let X4 := updCell X3 0 (Ny + 1) ((1/2) * (X3 1 (Ny + 1) + X3 0 Ny))
  let X5 := updCell X4 (Nx + 1) 0 ((1/2) * (X4 Nx 0 + X4 (Nx + 1) 1))
  updCell X5 (Nx + 1) (Ny + 1) ((1/2) * (X5 Nx (Ny + 1) + X5 (Nx + 1) Ny))

/-- `addSource(dest, source)` from `simulator.js`:
`dest[i][j][k] += timeStep * source[i][j][k]` over the whole allocated
array, border ring included (`for i,j = 0 .. N+1`). -/
def addSource (Nx Ny : ℕ) (dt : ℚ) (dest source : Field) : Field :=
  sweep (fun c i j => c i j + dt * source i j) (allCells Nx Ny) dest

/-- One in-place Gauss-Seidel sweep of the `diffuse` relaxation:
`cur[i][j] = (prev[i][j] + a*(cur[i-1][j] + cur[i+1][j] + cur[i][j-1] +
cur[i][j+1])) / (1 + 4a)` over all active cells in row-major order. -/
def diffuseSweep (Nx Ny : ℕ) (a : ℚ) (prev c : Field) : Field :=
  sweep (fun d i j =>
      (prev i j + a * (d (i-1) j + d (i+1) j + d i (j-1) + d i (j+1))) / (1 + 4 * a))
    (activeCells Nx Ny) c

/-- `diffuse(cur, prev, k, bMode)` from `simulator.js`:
`a = timeStep * k * Nx * Ny`; `N_SOLVER_ITERS` in-place sweeps, each
followed by `setBoundary(cur, bMode)`. -/
def diffuse (Nx Ny : ℕ) (dt : ℚ) (cur prev : Field) (k : ℚ) (bMode : ℕ) : Field :=
  (List.range N_SOLVER_ITERS).foldl
    (fun c _ => setBoundary Nx Ny bMode
      (diffuseSweep Nx Ny (dt * k * (Nx : ℚ) * (Ny : ℚ)) prev c)) cur

/-- The backtracked-coordinate clamp of `advect`:
`if(x < 0.5) x = 0.5; if(x > N + 0.5) x = N + 0.5;`. -/
def clampCoord (N : ℕ) (x0 : ℚ) : ℚ :=
  let x1 := if x0 < 1/2 then (1/2 : ℚ) else x0
  if x1 > (N : ℚ) + 1/2 then (N : ℚ) + 1/2 else x1

/-- The body of the `advect` double loop, as an in-place pass over the
active cells (it reads only `prev` and the velocity fields, never the
partially written output). -/
def advectCore (Nx Ny : ℕ) (prev velX velY cur : Field) : Field :=
  sweep (fun _c i j =>
      let x := clampCoord Nx ((i : ℚ) - (Nx : ℚ) * velX i j)
      let i0 := (⌊x⌋).toNat
      let i1 := i0 + 1
      let y := clampCoord Ny ((j : ℚ) - (Ny : ℚ) * velY i j)
      let j0 := (⌊y⌋).toNat
      let j1 := j0 + 1
      let s1 := x - (i0 : ℚ)
      let s0 := 1 - s1
      let t1 := y - (j0 : ℚ)
      let t0 := 1 - t1
      s0 * (t0 * prev i0 j0 + t1 * prev i0 j1) +
        s1 * (t0 * prev i1 j0 + t1 * prev i1 j1))
    (activeCells Nx Ny) cur

/-- `advect(cur, prev, vel, bMode)` from `simulator.js`: the
semi-Lagrangian backtracking loop followed by `setBoundary(cur, bMode)`. -/
def advect (Nx Ny : ℕ) (prev velX velY : Field) (bMode : ℕ) (cur : Field) : Field :=
  setBoundary Nx Ny bMode (advectCore Nx Ny prev velX velY cur)

/-- `project(vel, buf)` from `simulator.js`, with `p = buf[X_DIM]` and
`div = buf[Y_DIM]`.  Returns `(velX, velY, p, div)` after the call.
The first loop writes `div` and `p` interleaved per cell; the
`setBoundary(div)` and `setBoundary(p)` calls use the JS default mode,
which is `BOUNDARY_MIRROR`; then `N_SOLVER_ITERS` in-place relaxation
sweeps each followed by `setBoundary(p)`; then the gradient-subtraction
loop writes both velocity components interleaved per cell; finally
`setBoundary` with `BOUNDARY_OPPOSE_X` / `BOUNDARY_OPPOSE_Y`. -/
def project (Nx Ny : ℕ) (velX velY p div : Field) : Field × Field × Field × Field :=
  let Lx : ℚ := 1 / (Nx : ℚ)
  let Ly : ℚ := 1 / (Ny : ℚ)
  let dp := (activeCells Nx Ny).foldl (fun s ij =>
      (updCell s.1 ij.1 ij.2
        (-(1/2) * (Lx * (velX (ij.1 + 1) ij.2 - velX (ij.1 - 1) ij.2) +
                   Ly * (velY ij.1 (ij.2 + 1) - velY ij.1 (ij.2 - 1)))),
       updCell s.2 ij.1 ij.2 0)) (div, p)
  let div1 := setBoundary Nx Ny BOUNDARY_MIRROR dp.1
  let p1 := setBoundary Nx Ny BOUNDARY_MIRROR dp.2
  let p2 := (List.range N_SOLVER_ITERS).foldl (fun c _ =>
      setBoundary Nx Ny BOUNDARY_MIRROR
        (sweep (fun d i j =>
            (div1 i j + d (i-1) j + d (i+1) j + d i (j-1) + d i (j+1)) / 4)
          (activeCells Nx Ny) c)) p1
  let vv := (activeCells Nx Ny).foldl (fun s ij =>
      (updCell s.1 ij.1 ij.2
        (s.1 ij.1 ij.2 - (1/2) * (p2 (ij.1 + 1) ij.2 - p2 (ij.1 - 1) ij.2) / Lx),
       updCell s.2 ij.1 ij.2
        (s.2 ij.1 ij.2 - (1/2) * (p2 ij.1 (ij.2 + 1) - p2 ij.1 (ij.2 - 1)) / Ly)))
    (velX, velY)
  (setBoundary Nx Ny BOUNDARY_OPPOSE_X vv.1,
   setBoundary Nx Ny BOUNDARY_OPPOSE_Y vv.2, p2, div1)

/-- Phase (a) of the claimed `project` pipeline, following the spec's
words: for every active cell,
`div[i][j] = -0.5*(Lx*(velX[i+1][j]-velX[i-1][j]) + Ly*(velY[i][j+1]-velY[i][j-1]))`
with `Lx = 1/Nx`, `Ly = 1/Ny`. -/
def computeDivergence (Nx Ny : ℕ) (velX velY div : Field) : Field :=
  sweep (fun _c i j =>
      -(1/2) * (1 / (Nx : ℚ) * (velX (i + 1) j - velX (i - 1) j) +
                1 / (Ny : ℚ) * (velY i (j + 1) - velY i (j - 1))))
    (activeCells Nx Ny) div

/-- Phase (b) of the claimed `project` pipeline: zero the pressure
buffer at every active cell. -/
def zeroPressure (Nx Ny : ℕ) (p : Field) : Field :=
  sweep (fun _c _i _j => 0) (activeCells Nx Ny) p

/-- One Gauss-Seidel sweep of the claimed phase (d):
`p[i][j] = (div[i][j] + p[i-1][j] + p[i+1][j] + p[i][j-1] + p[i][j+1]) / 4`. -/
def relaxSweep (Nx Ny : ℕ) (div c : Field) : Field :=
  sweep (fun d i j =>
      (div i j + d (i-1) j + d (i+1) j + d i (j-1) + d i (j+1)) / 4)
    (activeCells Nx Ny) c

/-- Phase (e) of the claimed `project` pipeline for the X component:
`velX[i][j] -= 0.5*(p[i+1][j] - p[i-1][j])/Lx` with `Lx = 1/Nx`. -/
def subtractGradX (Nx Ny : ℕ) (p velX : Field) : Field :=
  sweep (fun c i j => c i j - 1/2 * (p (i + 1) j - p (i - 1) j) / (1 / (Nx : ℚ)))
    (activeCells Nx Ny) velX

/-- Phase (e) of the claimed `project` pipeline for the Y component:
`velY[i][j] -= 0.5*(p[i][j+1] - p[i][j-1])/Ly` with `Ly = 1/Ny`. -/
def subtractGradY (Nx Ny : ℕ) (p velY : Field) : Field :=
  sweep (fun c i j => c i j - 1/2 * (p i (j + 1) - p i (j - 1)) / (1 / (Ny : ℚ)))
    (activeCells Nx Ny) velY

/-- The `project` pipeline exactly as the claim states it: (a) compute
the divergence, (b) zero the pressure, (c) MIRROR boundary fill on both
buffers, (d) exactly 20 Gauss-Seidel sweeps with a MIRROR fill after
each, (e) subtract the pressure gradient, (f) OPPOSE_X / OPPOSE_Y
boundary fills on the velocity components, in that order. -/
def projectPhases (Nx Ny : ℕ) (velX velY p div : Field) :
    Field × Field × Field × Field :=
  let div1 := setBoundary Nx Ny BOUNDARY_MIRROR (computeDivergence Nx Ny velX velY div)
  let p1 := setBoundary Nx Ny BOUNDARY_MIRROR (zeroPressure Nx Ny p)
  let p2 := (fun c => setBoundary Nx Ny BOUNDARY_MIRROR (relaxSweep Nx Ny div1 c))^[20] p1
  (setBoundary Nx Ny BOUNDARY_OPPOSE_X (subtractGradX Nx Ny p2 velX),
   setBoundary Nx Ny BOUNDARY_OPPOSE_Y (subtractGradY Nx Ny p2 velY), p2, div1)

/-- The bilinear interpolation of `prev` at position `(x, y)`, with the
lower sample index the floor of the coordinate and weights from the
fractional remainder — the claim's description of the `advect` kernel. -/
def bilinearSample (prev : Field) (x y : ℚ) : ℚ :=
  let i0 := (⌊x⌋).toNat
  let j0 := (⌊y⌋).toNat
  let s1 := x - (i0 : ℚ)
  let t1 := y - (j0 : ℚ)
  (1 - s1) * ((1 - t1) * prev i0 j0 + t1 * prev i0 (j0 + 1)) +
    s1 * ((1 - t1) * prev (i0 + 1) j0 + t1 * prev (i0 + 1) (j0 + 1))

/-- Modelled from the spec: the Grid owns current and previous velocity
buffers, one scalar field per functional spatial dimension (X and Y;
the Z axis of the source arrays is a placeholder of size 1 and is not
functionally exercised).  The Grid implementation (`grid.js`) is not
among the analyzed sources. -/
structure VelState where
  velX : Field
  velY : Field
  prevVelX : Field
  prevVelY : Field

/-- Modelled from the spec: `Grid.swapV()` promotes the current
velocity buffers to previous and vice versa. -/
def swapV (s : VelState) : VelState :=
  { velX := s.prevVelX, velY := s.prevVelY, prevVelX := s.velX, prevVelY := s.velY }

/-- `vStep()` from `simulator.js`, with the Grid and its dimension
count modelled from the spec as genuinely two-dimensional (`grid.js`,
which defines `N_DIMS` and `swapV`, is not among the analyzed sources).
The per-dimension loops unroll to the X step followed by the Y step,
and `dim + 1` is the boundary mode passed for dimension `dim`.
`project(vel, prev_vel)` uses the previous-velocity buffers as its
pressure / divergence scratch space, so its third and fourth results
overwrite them.  In the advection loop the velocity field argument is
the grid's current velocity, mutated in place: the Y-component call
reads the freshly advected X component, while inside a single call the
aliased cell is read before it is written, so each call equals `advect`
on the fields at call entry. -/
def vStep (Nx Ny : ℕ) (dt visc : ℚ) (srcX srcY : Field) (s0 : VelState) : VelState :=
  let s1 : VelState :=
    { velX := addSource Nx Ny dt (addSource Nx Ny dt s0.velX s0.prevVelX) srcX,
      velY := addSource Nx Ny dt (addSource Nx Ny dt s0.velY s0.prevVelY) srcY,
      prevVelX := s0.prevVelX, prevVelY := s0.prevVelY }
  let s2 := swapV s1
  let s3 : VelState :=
    { velX := diffuse Nx Ny dt s2.velX s2.prevVelX visc (0 + 1),
      velY := diffuse Nx Ny dt s2.velY s2.prevVelY visc (1 + 1),
      prevVelX := s2.prevVelX, prevVelY := s2.prevVelY }
  let pr1 := project Nx Ny s3.velX s3.velY s3.prevVelX s3.prevVelY
  let s4 : VelState :=
    { velX := pr1.1, velY := pr1.2.1, prevVelX := pr1.2.2.1, prevVelY := pr1.2.2.2 }
  let s5 := swapV s4
  let vx := advect Nx Ny s5.prevVelX s5.velX s5.velY (0 + 1) s5.velX
  let vy := advect Nx Ny s5.prevVelY vx s5.velY (1 + 1) s5.velY
  let pr2 := project Nx Ny vx vy s5.prevVelX s5.prevVelY
  { velX := pr2.1, velY := pr2.2.1, prevVelX := pr2.2.2.1, prevVelY := pr2.2.2.2 }

/-- Stage (1) of the claimed `vStep` order: for each dimension, add the
previous velocity buffer and then the persistent velocity source into
the current velocity buffer. -/
def addVelSources (Nx Ny : ℕ) (dt : ℚ) (srcX srcY : Field) (s : VelState) : VelState :=
  { velX := addSource Nx Ny dt (addSource Nx Ny dt s.velX s.prevVelX) srcX,
    velY := addSource Nx Ny dt (addSource Nx Ny dt s.velY s.prevVelY) srcY,
    prevVelX := s.prevVelX, prevVelY := s.prevVelY }

/-- Stage (3) of the claimed `vStep` order: diffuse each velocity
component against the viscosity constant, the X component with
`BOUNDARY_OPPOSE_X` and the Y component with `BOUNDARY_OPPOSE_Y`
(the dimension index plus one). -/
def diffuseVel (Nx Ny : ℕ) (dt visc : ℚ) (s : VelState) : VelState :=
  { velX := diffuse Nx Ny dt s.velX s.prevVelX visc BOUNDARY_OPPOSE_X,
    velY := diffuse Nx Ny dt s.velY s.prevVelY visc BOUNDARY_OPPOSE_Y,
    prevVelX := s.prevVelX, prevVelY := s.prevVelY }

/-- Stages (4) and (7) of the claimed `vStep` order: `project` on the
velocity pair with the previous-velocity pair as scratch buffers. -/
def projectVel (Nx Ny : ℕ) (s : VelState) : VelState :=
  { velX := (project Nx Ny s.velX s.velY s.prevVelX s.prevVelY).1,
    velY := (project Nx Ny s.velX s.velY s.prevVelX s.prevVelY).2.1,
    prevVelX := (project Nx Ny s.velX s.velY s.prevVelX s.prevVelY).2.2.1,
    prevVelY := (project Nx Ny s.velX s.velY s.prevVelX s.prevVelY).2.2.2 }

/-- Stage (6) of the claimed `vStep` order: advect each velocity
component through the current velocity field with its per-dimension
boundary mode (the current field is updated in place, so the Y
component is advected through the already-advected X component). -/
def advectVel (Nx Ny : ℕ) (s : VelState) : VelState :=
  let vx := advect Nx Ny s.prevVelX s.velX s.velY BOUNDARY_OPPOSE_X s.velX
  let vy := advect Nx Ny s.prevVelY vx s.velY BOUNDARY_OPPOSE_Y s.velY
  { velX := vx, velY := vy, prevVelX := s.prevVelX, prevVelY := s.prevVelY }

/-- The `vStep` pipeline exactly as the claim states it. -/
def vStepPhases (Nx Ny : ℕ) (dt visc : ℚ) (srcX srcY : Field) (s : VelState) : VelState :=
  projectVel Nx Ny (advectVel Nx Ny (swapV (projectVel Nx Ny
    (diffuseVel Nx Ny dt visc (swapV (addVelSources Nx Ny dt srcX srcY s))))))

/-- The state stored by the `Simulator` constructor: the three numeric
parameters, the Grid construction arguments, and the persistent
velocity-source array `v_src` (a 4D array indexed dimension-first). -/
structure SimulatorState where
  diff : ℚ
  visc : ℚ
  timeStep : ℚ
  gridDims : ℕ × ℕ × ℕ
  gridSize : ℚ × ℚ × ℚ
  vSrc : ℕ → ℕ → ℕ → ℕ → ℚ

/-- The `Simulator(N, width, height, visc, diff, timeStep)` constructor
body from `simulator.js`: it stores `diff`, `visc` and `timeStep`,
constructs `new Grid([N, N, 1], [width, height, 0])`, defines the
methods, then allocates the persistent source array
`v_src = zeros4d(3, N+2, N+2, 3)` and writes the hard-coded demo
forcing term `v_src[X_DIM][5][25][1] = 500`.  `zeros4d`, `X_DIM = 0`
and the Grid come from `grid.js`, which is not among the analyzed
sources; they are modelled from the spec (`zeros4d` as a zero-filled
nested array with the given extents, Grid allocation as non-failing).
It contains no parameter validation, but under JavaScript indexing
semantics the demo write throws a TypeError whenever index `5` or `25`
falls outside the `N+2` extent (reading the out-of-range index yields
undefined and indexing undefined throws), i.e. whenever `N ≤ 23`;
otherwise construction succeeds with the parameters stored verbatim.
This fallibility is embedded with `Option`: `none` is the TypeError. -/
def SimulatorNew (N : ℕ) (width height visc diff timeStep : ℚ) : Option SimulatorState :=
  if 5 < N + 2 ∧ 25 < N + 2 then
    some { diff := diff, visc := visc, timeStep := timeStep,
           gridDims := (N, N, 1), gridSize := (width, height, 0),
           vSrc := fun d a b c => if d = 0 ∧ a = 5 ∧ b = 25 ∧ c = 1 then 500 else 0 }
  else none

/-- A concrete all-zero field, used to instantiate theorems. -/
def zeroField : Field := fun _ _ => 0

/-- A concrete non-constant field, used to instantiate theorems. -/
def rampField : Field := fun a b => (a : ℚ) * 10 + (b : ℚ)

theorem updCell_same (f : Field) (i j : ℕ) (v : ℚ) : updCell f i j v i j = v := by
  simp [updCell]

theorem updCell_other (f : Field) (i j : ℕ) (v : ℚ) (a b : ℕ)
    (h : ¬(a = i ∧ b = j)) : updCell f i j v a b = f a b := by
  simp only [updCell, if_neg h]

theorem sweep_nil (g : Field → ℕ → ℕ → ℚ) (c : Field) : sweep g [] c = c := rfl

theorem sweep_cons (g : Field → ℕ → ℕ → ℚ) (p : ℕ × ℕ) (l : List (ℕ × ℕ)) (c : Field) :
    sweep g (p :: l) c = sweep g l (updCell c p.1 p.2 (g c p.1 p.2)) := rfl

theorem sweep_append (g : Field → ℕ → ℕ → ℚ) (l1 l2 : List (ℕ × ℕ)) (c : Field) :
    sweep g (l1 ++ l2) c = sweep g l2 (sweep g l1 c) := by
  simp [sweep, List.foldl_append]

theorem sweep_not_mem (g : Field → ℕ → ℕ → ℚ) :
    ∀ (l : List (ℕ × ℕ)) (c : Field) (a b : ℕ), (a, b) ∉ l → sweep g l c a b = c a b := by
  intro l
  induction l with
  | nil => intro c a b _; rfl
  | cons p rest ih =>
    intro c a b h
    rw [List.mem_cons] at h
    push_neg at h
    rw [sweep_cons, ih _ _ _ h.2, updCell_other]
    intro hab
    exact h.1 (by cases p; simp_all)

theorem lexLt_irrefl (p : ℕ × ℕ) : ¬ lexLt p p := by
  simp [lexLt]

theorem not_mem_of_lexLt_left {l : List (ℕ × ℕ)} {i j : ℕ}
    (h : ∀ q ∈ l, lexLt q (i, j)) : (i, j) ∉ l := by
  intro hm
  exact lexLt_irrefl (i, j) (h _ hm)

theorem not_mem_of_lexLt_right {l : List (ℕ × ℕ)} {i j : ℕ}
    (h : ∀ q ∈ l, lexLt (i, j) q) : (i, j) ∉ l := by
  intro hm
  exact lexLt_irrefl (i, j) (h _ hm)

theorem mem_gridCells (ox oy nx ny a b : ℕ) :
    (a, b) ∈ gridCells ox oy nx ny ↔
      (ox ≤ a ∧ a < ox + nx ∧ oy ≤ b ∧ b < oy + ny) := by
  simp only [gridCells, List.mem_flatMap, List.mem_map, List.mem_range, Prod.mk.injEq]
  constructor
  · rintro ⟨s, hs, t, ht, rfl, rfl⟩
    omega
  · rintro ⟨h1, h2, h3, h4⟩
    exact ⟨a - ox, by omega, b - oy, by omega, by omega, by omega⟩

/-- The visiting order of `gridCells` can be split at any visited cell:
everything before it is row-major smaller, everything after row-major
larger. -/
theorem range_split_at (n m : ℕ) (h : m < n) :
    List.range n = List.range m ++ m ::
      List.map (fun u => m + 1 + u) (List.range (n - m - 1)) := by
  conv_lhs => rw [show n = m + (1 + (n - m - 1)) by omega]
  rw [List.range_add, List.range_add, show List.range 1 = [0] from rfl]
  simp [List.map_map, Function.comp, Nat.add_assoc]

/-- The visiting order of `gridCells` can be split at any visited cell:
everything before it is row-major smaller, everything after row-major
larger. -/
theorem gridCells_split (ox oy nx ny s0 t0 : ℕ) (hs : s0 < nx) (ht : t0 < ny) :
    ∃ pre post, gridCells ox oy nx ny = pre ++ (ox + s0, oy + t0) :: post ∧
      (∀ q ∈ pre, lexLt q (ox + s0, oy + t0)) ∧
      (∀ q ∈ post, lexLt (ox + s0, oy + t0) q) := by
  refine ⟨(List.range s0).flatMap
            (fun s => (List.range ny).map (fun t => (ox + s, oy + t)))
          ++ (List.range t0).map (fun t => (ox + s0, oy + t)),
          (List.range (ny - t0 - 1)).map (fun u => (ox + s0, oy + (t0 + 1 + u)))
          ++ (List.range (nx - s0 - 1)).flatMap
            (fun u => (List.range ny).map (fun t => (ox + (s0 + 1 + u), oy + t))),
          ?_, ?_, ?_⟩
  · have hmid : (List.range ny).map (fun t => ((ox + s0 : ℕ), oy + t)) =
        (List.range t0).map (fun t => ((ox + s0 : ℕ), oy + t))
        ++ (ox + s0, oy + t0) ::
          (List.range (ny - t0 - 1)).map (fun u => ((ox + s0 : ℕ), oy + (t0 + 1 + u))) := by
      rw [range_split_at ny t0 ht]
      simp [List.map_map, Function.comp, Nat.add_assoc]
    rw [gridCells, range_split_at nx s0 hs, List.flatMap_append, List.flatMap_cons,
      List.flatMap_map, hmid]
    simp [List.append_assoc, Nat.add_assoc]
  · intro q hq
    rw [List.mem_append] at hq
    rcases hq with hq | hq
    · rw [List.mem_flatMap] at hq
      obtain ⟨s, hs', t, ht', rfl⟩ := by
        simpa only [List.mem_map, List.mem_range] using hq
      exact Or.inl (by simp; omega)
    · obtain ⟨t, ht', rfl⟩ := by
        simpa only [List.mem_map, List.mem_range] using hq
      exact Or.inr ⟨rfl, by simp; omega⟩
  · intro q hq
    rw [List.mem_append] at hq
    rcases hq with hq | hq
    · obtain ⟨u, hu, rfl⟩ := by
        simpa only [List.mem_map, List.mem_range] using hq
      exact Or.inr ⟨rfl, by simp; omega⟩
    · rw [List.mem_flatMap] at hq
      obtain ⟨u, hu, t, ht', rfl⟩ := by
        simpa only [List.mem_map, List.mem_range] using hq
      exact Or.inl (by simp at hu ⊢; omega)

/-- Split of the active-cell visiting order at an active cell `(i, j)`. -/
theorem activeCells_split (Nx Ny i j : ℕ)
    (hi1 : 1 ≤ i) (hi2 : i ≤ Nx) (hj1 : 1 ≤ j) (hj2 : j ≤ Ny) :
    ∃ pre post, activeCells Nx Ny = pre ++ (i, j) :: post ∧
      (∀ q ∈ pre, lexLt q (i, j)) ∧ (∀ q ∈ post, lexLt (i, j) q) := by
  obtain ⟨pre, post, h, h1, h2⟩ :=
    gridCells_split 1 1 Nx Ny (i - 1) (j - 1) (by omega) (by omega)
  rw [show 1 + (i - 1) = i by omega, show 1 + (j - 1) = j by omega] at h h1 h2
  exact ⟨pre, post, h, h1, h2⟩

/-- Split of the whole-array visiting order of `addSource` at a cell. -/
theorem allCells_split (Nx Ny i j : ℕ) (hi : i < Nx + 2) (hj : j < Ny + 2) :
    ∃ pre post, allCells Nx Ny = pre ++ (i, j) :: post ∧
      (∀ q ∈ pre, lexLt q (i, j)) ∧ (∀ q ∈ post, lexLt (i, j) q) := by
  obtain ⟨pre, post, h, h1, h2⟩ := gridCells_split 0 0 (Nx + 2) (Ny + 2) i j hi hj
  rw [Nat.zero_add, Nat.zero_add] at h h1 h2
  exact ⟨pre, post, h, h1, h2⟩

theorem mem_activeCells (Nx Ny a b : ℕ) :
    (a, b) ∈ activeCells Nx Ny ↔ (1 ≤ a ∧ a ≤ Nx ∧ 1 ≤ b ∧ b ≤ Ny) := by
  rw [activeCells, mem_gridCells]
  omega

theorem mem_allCells (Nx Ny a b : ℕ) :
    (a, b) ∈ allCells Nx Ny ↔ (a < Nx + 2 ∧ b < Ny + 2) := by
  rw [allCells, mem_gridCells]
  omega

/-- A sweep leaves every cell outside the active region untouched. -/
theorem sweep_activeCells_frame (g : Field → ℕ → ℕ → ℚ) (Nx Ny : ℕ) (c : Field)
    (a b : ℕ) (h : ¬(1 ≤ a ∧ a ≤ Nx ∧ 1 ≤ b ∧ b ≤ Ny)) :
    sweep g (activeCells Nx Ny) c a b = c a b := by
  exact sweep_not_mem g _ c a b (by rw [mem_activeCells]; exact h)

/-- Evaluating a sweep at a visited cell when the update value reads the
current state only at the visited cell itself: the cell is written once,
from its not-yet-updated value. -/
theorem sweep_eval_own (g : Field → ℕ → ℕ → ℚ) (φ : ℕ → ℕ → ℚ → ℚ)
    (hg : ∀ c i j, g c i j = φ i j (c i j))
    (pre post : List (ℕ × ℕ)) (i j : ℕ)
    (hpre : ∀ q ∈ pre, lexLt q (i, j)) (hpost : ∀ q ∈ post, lexLt (i, j) q)
    (c : Field) :
    sweep g (pre ++ (i, j) :: post) c i j = φ i j (c i j) := by
  rw [sweep_append, sweep_cons]
  have hM : sweep g pre c i j = c i j :=
    sweep_not_mem g pre c i j (not_mem_of_lexLt_left hpre)
  rw [sweep_not_mem g post _ i j (not_mem_of_lexLt_right hpost)]
  rw [updCell_same, hg, hM]

/-- Evaluating a sweep at a visited cell when the update value reads the
current state only at the four axis neighbors (the shape of the
Gauss-Seidel kernels of `diffuse` and `project`): with the row-major
visiting order, the west and north neighbors are read after they were
updated in the same sweep, the east and south ones before. -/
theorem sweep_eval_gs (g : Field → ℕ → ℕ → ℚ) (φ : ℕ → ℕ → ℚ → ℚ → ℚ → ℚ → ℚ)
    (hg : ∀ c i j, g c i j = φ i j (c (i-1) j) (c (i+1) j) (c i (j-1)) (c i (j+1)))
    (pre post : List (ℕ × ℕ)) (i j : ℕ) (hi : 1 ≤ i) (hj : 1 ≤ j)
    (hpre : ∀ q ∈ pre, lexLt q (i, j)) (hpost : ∀ q ∈ post, lexLt (i, j) q)
    (c : Field) :
    sweep g (pre ++ (i, j) :: post) c i j =
      φ i j (sweep g (pre ++ (i, j) :: post) c (i-1) j) (c (i+1) j)
            (sweep g (pre ++ (i, j) :: post) c i (j-1)) (c i (j+1)) := by
  have hW : (i - 1, j) ∉ post := by
    intro hm
    have := hpost _ hm
    simp only [lexLt] at this
    omega
  have hN : (i, j - 1) ∉ post := by
    intro hm
    have := hpost _ hm
    simp only [lexLt] at this
    omega
  have hE : (i + 1, j) ∉ pre := by
    intro hm
    have := hpre _ hm
    simp only [lexLt] at this
    omega
  have hS : (i, j + 1) ∉ pre := by
    intro hm
    have := hpre _ hm
    simp only [lexLt] at this
    omega
  have hMid : (i, j) ∉ post := not_mem_of_lexLt_right hpost
  have hMidPre : (i, j) ∉ pre := not_mem_of_lexLt_left hpre
  have hMw : sweep g post (updCell (sweep g pre c) i j
      (g (sweep g pre c) i j)) (i-1) j = sweep g pre c (i-1) j := by
    rw [sweep_not_mem g post _ _ _ hW, updCell_other]
    intro hab
    omega
  have hMn : sweep g post (updCell (sweep g pre c) i j
      (g (sweep g pre c) i j)) i (j-1) = sweep g pre c i (j-1) := by
    rw [sweep_not_mem g post _ _ _ hN, updCell_other]
    intro hab
    omega
  rw [sweep_append, sweep_cons]
  dsimp only
  rw [hMw, hMn, sweep_not_mem g post _ i j hMid, updCell_same, hg,
    sweep_not_mem g pre c (i+1) j hE, sweep_not_mem g pre c i (j+1) hS]

theorem colLoop_succ (Nx mode n : ℕ) (c0 : Field) :
    colLoop Nx mode (n + 1) c0 = colStep Nx mode (colLoop Nx mode n c0) n := by
  rw [colLoop, colLoop, List.range_succ, List.foldl_append]
  rfl

theorem rowLoop_succ (Ny mode n : ℕ) (c0 : Field) :
    rowLoop Ny mode (n + 1) c0 = rowStep Ny mode (rowLoop Ny mode n c0) n := by
  rw [rowLoop, rowLoop, List.range_succ, List.foldl_append]
  rfl

theorem colStep_frame (Nx mode : ℕ) (c : Field) (t a b : ℕ)
    (h : ¬(a = 0 ∧ b = t + 1) ∧ ¬(a = Nx + 1 ∧ b = t + 1)) :
    colStep Nx mode c t a b = c a b := by
  rw [colStep, updCell_other _ _ _ _ _ _ h.2, updCell_other _ _ _ _ _ _ h.1]

theorem rowStep_frame (Ny mode : ℕ) (c : Field) (t a b : ℕ)
    (h : ¬(a = t + 1 ∧ b = 0) ∧ ¬(a = t + 1 ∧ b = Ny + 1)) :
    rowStep Ny mode c t a b = c a b := by
  rw [rowStep, updCell_other _ _ _ _ _ _ h.2, updCell_other _ _ _ _ _ _ h.1]

/-- The left/right-edge loop writes only the columns `0` and `Nx + 1`. -/
theorem colLoop_frame (Nx mode : ℕ) : ∀ (n : ℕ) (c0 : Field) (a b : ℕ),
    a ≠ 0 → a ≠ Nx + 1 → colLoop Nx mode n c0 a b = c0 a b := by
  intro n
  induction n with
  | zero => intro c0 a b _ _; rfl
  | succ m ih =>
    intro c0 a b h1 h2
    rw [colLoop_succ, colStep_frame _ _ _ _ _ _ ⟨by tauto, by tauto⟩, ih c0 a b h1 h2]

/-- The top/bottom-edge loop writes only the rows `0` and `Ny + 1`. -/
theorem rowLoop_frame (Ny mode : ℕ) : ∀ (n : ℕ) (c0 : Field) (a b : ℕ),
    b ≠ 0 → b ≠ Ny + 1 → rowLoop Ny mode n c0 a b = c0 a b := by
  intro n
  induction n with
  | zero => intro c0 a b _ _; rfl
  | succ m ih =>
    intro c0 a b h1 h2
    rw [rowLoop_succ, rowStep_frame _ _ _ _ _ _ ⟨by tauto, by tauto⟩, ih c0 a b h1 h2]

/-- The value written into the left border column by `setBoundary`'s
first loop. -/
theorem colLoop_left (Nx mode : ℕ) (hNx : 1 ≤ Nx) :
    ∀ (n : ℕ) (X : Field) (j : ℕ), 1 ≤ j → j ≤ n →
    colLoop Nx mode n X 0 j =
      (if mode = BOUNDARY_OPPOSE_X then -(X 1 j) else X 1 j) := by
  intro n
  induction n with
  | zero => intro X j h1 h2; omega
  | succ m ih =>
    intro X j h1 h2
    rw [colLoop_succ]
    rcases Nat.lt_or_ge j (m + 1) with hj | hj
    · rw [colStep_frame _ _ _ _ _ _ ⟨by omega, by omega⟩, ih X j h1 (by omega)]
    · have hjm : j = m + 1 := by omega
      subst hjm
      rw [colStep, updCell_other _ _ _ _ _ _ (by omega), updCell_same,
        colLoop_frame Nx mode m X 1 (m + 1) (by omega) (by omega)]

/-- The value written into the right border column by `setBoundary`'s
first loop. -/
theorem colLoop_right (Nx mode : ℕ) (hNx : 1 ≤ Nx) :
    ∀ (n : ℕ) (X : Field) (j : ℕ), 1 ≤ j → j ≤ n →
    colLoop Nx mode n X (Nx + 1) j =
      (if mode = BOUNDARY_OPPOSE_X then -(X Nx j) else X Nx j) := by
  intro n
  induction n with
  | zero => intro X j h1 h2; omega
  | succ m ih =>
    intro X j h1 h2
    rw [colLoop_succ]
    rcases Nat.lt_or_ge j (m + 1) with hj | hj
    · rw [colStep_frame _ _ _ _ _ _ ⟨by omega, by omega⟩, ih X j h1 (by omega)]
    · have hjm : j = m + 1 := by omega
      subst hjm
      rw [colStep, updCell_same, updCell_other _ _ _ _ _ _ (by omega),
        colLoop_frame Nx mode m X Nx (m + 1) (by omega) (by omega)]

/-- The value written into the bottom border row by `setBoundary`'s
second loop. -/
theorem rowLoop_bottom (Ny mode : ℕ) (hNy : 1 ≤ Ny) :
    ∀ (n : ℕ) (X : Field) (i : ℕ), 1 ≤ i → i ≤ n →
    rowLoop Ny mode n X i 0 =
      (if mode = BOUNDARY_OPPOSE_Y then -(X i 1) else X i 1) := by
  intro n
  induction n with
  | zero => intro X i h1 h2; omega
  | succ m ih =>
    intro X i h1 h2
    rw [rowLoop_succ]
    rcases Nat.lt_or_ge i (m + 1) with hi | hi
    · rw [rowStep_frame _ _ _ _ _ _ ⟨by omega, by omega⟩, ih X i h1 (by omega)]
    · have him : i = m + 1 := by omega
      subst him
      rw [rowStep, updCell_other _ _ _ _ _ _ (by omega), updCell_same,
        rowLoop_frame Ny mode m X (m + 1) 1 (by omega) (by omega)]

/-- The value written into the top border row by `setBoundary`'s
second loop. -/
theorem rowLoop_top (Ny mode : ℕ) (hNy : 1 ≤ Ny) :
    ∀ (n : ℕ) (X : Field) (i : ℕ), 1 ≤ i → i ≤ n →
    rowLoop Ny mode n X i (Ny + 1) =
      (if mode = BOUNDARY_OPPOSE_Y then -(X i Ny) else X i Ny) := by
  intro n
  induction n with
  | zero => intro X i h1 h2; omega
  | succ m ih =>
    intro X i h1 h2
    rw [rowLoop_succ]
    rcases Nat.lt_or_ge i (m + 1) with hi | hi
    · rw [rowStep_frame _ _ _ _ _ _ ⟨by omega, by omega⟩, ih X i h1 (by omega)]
    · have him : i = m + 1 := by omega
      subst him
      rw [rowStep, updCell_same, updCell_other _ _ _ _ _ _ (by omega),
        rowLoop_frame Ny mode m X (m + 1) Ny (by omega) (by omega)]

/-- `setBoundary` never writes an active cell. -/
theorem setBoundary_active (Nx Ny mode : ℕ) (X : Field) (i j : ℕ)
    (hi1 : 1 ≤ i) (hi2 : i ≤ Nx) (hj1 : 1 ≤ j) (hj2 : j ≤ Ny) :
    setBoundary Nx Ny mode X i j = X i j := by
  rw [setBoundary]
  rw [updCell_other _ _ _ _ _ _ (by omega), updCell_other _ _ _ _ _ _ (by omega),
    updCell_other _ _ _ _ _ _ (by omega), updCell_other _ _ _ _ _ _ (by omega),
    rowLoop_frame Ny mode Nx _ i j (by omega) (by omega),
    colLoop_frame Nx mode Ny X i j (by omega) (by omega)]

/-- Left border column after `setBoundary`. -/
theorem setBoundary_left (Nx Ny mode : ℕ) (X : Field) (j : ℕ)
    (hNx : 1 ≤ Nx) (hj1 : 1 ≤ j) (hj2 : j ≤ Ny) :
    setBoundary Nx Ny mode X 0 j =
      (if mode = BOUNDARY_OPPOSE_X then -(X 1 j) else X 1 j) := by
  simp only [setBoundary]
  rw [updCell_other _ _ _ _ _ _ (by omega), updCell_other _ _ _ _ _ _ (by omega),
    updCell_other _ _ _ _ _ _ (by omega), updCell_other _ _ _ _ _ _ (by omega),
    rowLoop_frame Ny mode Nx _ 0 j (by omega) (by omega),
    colLoop_left Nx mode hNx Ny X j hj1 hj2]

/-- Right border column after `setBoundary`. -/
theorem setBoundary_right (Nx Ny mode : ℕ) (X : Field) (j : ℕ)
    (hNx : 1 ≤ Nx) (hj1 : 1 ≤ j) (hj2 : j ≤ Ny) :
    setBoundary Nx Ny mode X (Nx + 1) j =
      (if mode = BOUNDARY_OPPOSE_X then -(X Nx j) else X Nx j) := by
  simp only [setBoundary]
  rw [updCell_other _ _ _ _ _ _ (by omega), updCell_other _ _ _ _ _ _ (by omega),
    updCell_other _ _ _ _ _ _ (by omega), updCell_other _ _ _ _ _ _ (by omega),
    rowLoop_frame Ny mode Nx _ (Nx + 1) j (by omega) (by omega),
    colLoop_right Nx mode hNx Ny X j hj1 hj2]

/-- Bottom border row after `setBoundary`. -/
theorem setBoundary_bottom (Nx Ny mode : ℕ) (X : Field) (i : ℕ)
    (hNy : 1 ≤ Ny) (hi1 : 1 ≤ i) (hi2 : i ≤ Nx) :
    setBoundary Nx Ny mode X i 0 =
      (if mode = BOUNDARY_OPPOSE_Y then -(X i 1) else X i 1) := by
  simp only [setBoundary]
  rw [updCell_other _ _ _ _ _ _ (by omega), updCell_other _ _ _ _ _ _ (by omega),
    updCell_other _ _ _ _ _ _ (by omega), updCell_other _ _ _ _ _ _ (by omega),
    rowLoop_bottom Ny mode hNy Nx _ i hi1 hi2,
    colLoop_frame Nx mode Ny X i 1 (by omega) (by omega)]

/-- Top border row after `setBoundary`. -/
theorem setBoundary_top (Nx Ny mode : ℕ) (X : Field) (i : ℕ)
    (hNy : 1 ≤ Ny) (hi1 : 1 ≤ i) (hi2 : i ≤ Nx) :
    setBoundary Nx Ny mode X i (Ny + 1) =
      (if mode = BOUNDARY_OPPOSE_Y then -(X i Ny) else X i Ny) := by
  simp only [setBoundary]
  rw [updCell_other _ _ _ _ _ _ (by omega), updCell_other _ _ _ _ _ _ (by omega),
    updCell_other _ _ _ _ _ _ (by omega), updCell_other _ _ _ _ _ _ (by omega),
    rowLoop_top Ny mode hNy Nx _ i hi1 hi2,
    colLoop_frame Nx mode Ny X i Ny (by omega) (by omega)]

/-- The corner `(0, 0)` ends as the average of its two edge neighbors. -/
theorem setBoundary_corner00 (Nx Ny mode : ℕ) (X : Field)
    (hNx : 1 ≤ Nx) (hNy : 1 ≤ Ny) :
    setBoundary Nx Ny mode X 0 0 =
      (1/2) * (setBoundary Nx Ny mode X 1 0 + setBoundary Nx Ny mode X 0 1) := by
  have e1 : setBoundary Nx Ny mode X 0 0 =
      (1/2) * (rowLoop Ny mode Nx (colLoop Nx mode Ny X) 1 0
               + rowLoop Ny mode Nx (colLoop Nx mode Ny X) 0 1) := by
    simp only [setBoundary]
    rw [updCell_other _ _ _ _ _ _ (by omega), updCell_other _ _ _ _ _ _ (by omega),
      updCell_other _ _ _ _ _ _ (by omega), updCell_same]
  have e2 : setBoundary Nx Ny mode X 1 0 =
      rowLoop Ny mode Nx (colLoop Nx mode Ny X) 1 0 := by
    simp only [setBoundary]
    rw [updCell_other _ _ _ _ _ _ (by omega), updCell_other _ _ _ _ _ _ (by omega),
      updCell_other _ _ _ _ _ _ (by omega), updCell_other _ _ _ _ _ _ (by omega)]
  have e3 : setBoundary Nx Ny mode X 0 1 =
      rowLoop Ny mode Nx (colLoop Nx mode Ny X) 0 1 := by
    simp only [setBoundary]
    rw [updCell_other _ _ _ _ _ _ (by omega), updCell_other _ _ _ _ _ _ (by omega),
      updCell_other _ _ _ _ _ _ (by omega), updCell_other _ _ _ _ _ _ (by omega)]
  rw [e1, e2, e3]

/-- The corner `(0, Ny+1)` ends as the average of its two edge neighbors. -/
theorem setBoundary_corner01 (Nx Ny mode : ℕ) (X : Field)
    (hNx : 1 ≤ Nx) (hNy : 1 ≤ Ny) :
    setBoundary Nx Ny mode X 0 (Ny + 1) =
      (1/2) * (setBoundary Nx Ny mode X 1 (Ny + 1)
               + setBoundary Nx Ny mode X 0 Ny) := by
  have f1 : setBoundary Nx Ny mode X 0 (Ny + 1) =
      (1/2) * (rowLoop Ny mode Nx (colLoop Nx mode Ny X) 1 (Ny + 1)
               + rowLoop Ny mode Nx (colLoop Nx mode Ny X) 0 Ny) := by
    simp only [setBoundary]
    rw [updCell_other _ _ _ _ _ _ (by omega), updCell_other _ _ _ _ _ _ (by omega),
      updCell_same, updCell_other _ _ _ _ _ _ (by omega),
      updCell_other _ _ _ _ _ _ (by omega)]
  have f2 : setBoundary Nx Ny mode X 1 (Ny + 1) =
      rowLoop Ny mode Nx (colLoop Nx mode Ny X) 1 (Ny + 1) := by
    simp only [setBoundary]
    rw [updCell_other _ _ _ _ _ _ (by omega), updCell_other _ _ _ _ _ _ (by omega),
      updCell_other _ _ _ _ _ _ (by omega), updCell_other _ _ _ _ _ _ (by omega)]
  have f3 : setBoundary Nx Ny mode X 0 Ny =
      rowLoop Ny mode Nx (colLoop Nx mode Ny X) 0 Ny := by
    simp only [setBoundary]
    rw [updCell_other _ _ _ _ _ _ (by omega), updCell_other _ _ _ _ _ _ (by omega),
      updCell_other _ _ _ _ _ _ (by omega), updCell_other _ _ _ _ _ _ (by omega)]
  rw [f1, f2, f3]

/-- The corner `(Nx+1, 0)` ends as the average of its two edge neighbors. -/
theorem setBoundary_corner10 (Nx Ny mode : ℕ) (X : Field)
    (hNx : 1 ≤ Nx) (hNy : 1 ≤ Ny) :
    setBoundary Nx Ny mode X (Nx + 1) 0 =
      (1/2) * (setBoundary Nx Ny mode X Nx 0
               + setBoundary Nx Ny mode X (Nx + 1) 1) := by
  have g1 : setBoundary Nx Ny mode X (Nx + 1) 0 =
      (1/2) * (rowLoop Ny mode Nx (colLoop Nx mode Ny X) Nx 0
               + rowLoop Ny mode Nx (colLoop Nx mode Ny X) (Nx + 1) 1) := by
    simp only [setBoundary]
    rw [updCell_other _ _ _ _ _ _ (by omega), updCell_same,
      updCell_other _ _ _ _ _ _ (by omega), updCell_other _ _ _ _ _ _ (by omega),
      updCell_other _ _ _ _ _ _ (by omega), updCell_other _ _ _ _ _ _ (by omega)]
  have g2 : setBoundary Nx Ny mode X Nx 0 =
      rowLoop Ny mode Nx (colLoop Nx mode Ny X) Nx 0 := by
    simp only [setBoundary]
    rw [updCell_other _ _ _ _ _ _ (by omega), updCell_other _ _ _ _ _ _ (by omega),
      updCell_other _ _ _ _ _ _ (by omega), updCell_other _ _ _ _ _ _ (by omega)]
  have g3 : setBoundary Nx Ny mode X (Nx + 1) 1 =
      rowLoop Ny mode Nx (colLoop Nx mode Ny X) (Nx + 1) 1 := by
    simp only [setBoundary]
    rw [updCell_other _ _ _ _ _ _ (by omega), updCell_other _ _ _ _ _ _ (by omega),
      updCell_other _ _ _ _ _ _ (by omega), updCell_other _ _ _ _ _ _ (by omega)]
  rw [g1, g2, g3]

/-- The corner `(Nx+1, Ny+1)` ends as the average of its two edge
neighbors. -/
theorem setBoundary_corner11 (Nx Ny mode : ℕ) (X : Field)
    (hNx : 1 ≤ Nx) (hNy : 1 ≤ Ny) :
    setBoundary Nx Ny mode X (Nx + 1) (Ny + 1) =
      (1/2) * (setBoundary Nx Ny mode X Nx (Ny + 1)
               + setBoundary Nx Ny mode X (Nx + 1) Ny) := by
  have k1 : setBoundary Nx Ny mode X (Nx + 1) (Ny + 1) =
      (1/2) * (rowLoop Ny mode Nx (colLoop Nx mode Ny X) Nx (Ny + 1)
               + rowLoop Ny mode Nx (colLoop Nx mode Ny X) (Nx + 1) Ny) := by
    simp only [setBoundary]
    rw [updCell_same, updCell_other _ _ _ _ _ _ (by omega),
      updCell_other _ _ _ _ _ _ (by omega), updCell_other _ _ _ _ _ _ (by omega),
      updCell_other _ _ _ _ _ _ (by omega), updCell_other _ _ _ _ _ _ (by omega),
      updCell_other _ _ _ _ _ _ (by omega)]
  have k2 : setBoundary Nx Ny mode X Nx (Ny + 1) =
      rowLoop Ny mode Nx (colLoop Nx mode Ny X) Nx (Ny + 1) := by
    simp only [setBoundary]
    rw [updCell_other _ _ _ _ _ _ (by omega), updCell_other _ _ _ _ _ _ (by omega),
      updCell_other _ _ _ _ _ _ (by omega), updCell_other _ _ _ _ _ _ (by omega)]
  have k3 : setBoundary Nx Ny mode X (Nx + 1) Ny =
      rowLoop Ny mode Nx (colLoop Nx mode Ny X) (Nx + 1) Ny := by
    simp only [setBoundary]
    rw [updCell_other _ _ _ _ _ _ (by omega), updCell_other _ _ _ _ _ _ (by omega),
      updCell_other _ _ _ _ _ _ (by omega), updCell_other _ _ _ _ _ _ (by omega)]
  rw [k1, k2, k3]

/-- A loop repeated for a fixed iteration count, ignoring the index
(the `for(var iter=0; iter<N_SOLVER_ITERS; iter++)` loops). -/
theorem foldl_range_const {α : Type} (f : α → α) :
    ∀ (n : ℕ) (x : α), (List.range n).foldl (fun c _ => f c) x = f^[n] x := by
  intro n
  induction n with
  | zero => intro x; rfl
  | succ m ih =>
    intro x
    rw [List.range_succ, List.foldl_append, ih x]
    exact (Function.iterate_succ_apply' f m x).symm

/-- A fold whose step updates the two components of a pair
independently is the pair of the two component folds (the translation
fact for the source loops that write two distinct arrays in one body). -/
theorem foldl_prod_split {α β γ : Type} (f : α → γ → α) (g : β → γ → β) :
    ∀ (l : List γ) (a : α) (b : β),
      l.foldl (fun s x => (f s.1 x, g s.2 x)) (a, b) = (l.foldl f a, l.foldl g b) := by
  intro l
  induction l with
  | nil => intro a b; rfl
  | cons p rest ih =>
    intro a b
    rw [List.foldl_cons, List.foldl_cons, List.foldl_cons]
    exact ih (f a p) (g b p)

/-- The gradient-subtraction loop of `project` writes the two velocity
components independently, so it splits into the two per-component
passes. -/
theorem gradPair_split (Nx Ny : ℕ) (P velX velY : Field) :
    (activeCells Nx Ny).foldl (fun s ij =>
      (updCell s.1 ij.1 ij.2
        (s.1 ij.1 ij.2 - 1/2 * (P (ij.1 + 1) ij.2 - P (ij.1 - 1) ij.2) / (1 / (Nx : ℚ))),
       updCell s.2 ij.1 ij.2
        (s.2 ij.1 ij.2 - 1/2 * (P ij.1 (ij.2 + 1) - P ij.1 (ij.2 - 1)) / (1 / (Ny : ℚ)))))
      (velX, velY)
      = (subtractGradX Nx Ny P velX, subtractGradY Nx Ny P velY) :=
  foldl_prod_split
    (fun s ij => updCell s ij.1 ij.2
      (s ij.1 ij.2 - 1/2 * (P (ij.1 + 1) ij.2 - P (ij.1 - 1) ij.2) / (1 / (Nx : ℚ))))
    (fun s ij => updCell s ij.1 ij.2
      (s ij.1 ij.2 - 1/2 * (P ij.1 (ij.2 + 1) - P ij.1 (ij.2 - 1)) / (1 / (Ny : ℚ))))
    (activeCells Nx Ny) velX velY

theorem project_eq_phases (Nx Ny : ℕ) (velX velY p div : Field) :
    project Nx Ny velX velY p div = projectPhases Nx Ny velX velY p div := by
  have hdp : (activeCells Nx Ny).foldl (fun s ij =>
      (updCell s.1 ij.1 ij.2
        (-(1/2) * (1 / (Nx : ℚ) * (velX (ij.1 + 1) ij.2 - velX (ij.1 - 1) ij.2) +
                   1 / (Ny : ℚ) * (velY ij.1 (ij.2 + 1) - velY ij.1 (ij.2 - 1)))),
       updCell s.2 ij.1 ij.2 0)) (div, p)
      = (computeDivergence Nx Ny velX velY div, zeroPressure Nx Ny p) :=
    foldl_prod_split
      (fun s ij => updCell s ij.1 ij.2
        (-(1/2) * (1 / (Nx : ℚ) * (velX (ij.1 + 1) ij.2 - velX (ij.1 - 1) ij.2) +
                   1 / (Ny : ℚ) * (velY ij.1 (ij.2 + 1) - velY ij.1 (ij.2 - 1)))))
      (fun s ij => updCell s ij.1 ij.2 0) (activeCells Nx Ny) div p
  simp only [project, projectPhases]
  rw [hdp]
  dsimp only
  have hit : (List.range N_SOLVER_ITERS).foldl (fun c _ =>
      setBoundary Nx Ny BOUNDARY_MIRROR
        (sweep (fun d i j =>
            (setBoundary Nx Ny BOUNDARY_MIRROR (computeDivergence Nx Ny velX velY div) i j
             + d (i-1) j + d (i+1) j + d i (j-1) + d i (j+1)) / 4)
          (activeCells Nx Ny) c))
      (setBoundary Nx Ny BOUNDARY_MIRROR (zeroPressure Nx Ny p))
      = (fun c => setBoundary Nx Ny BOUNDARY_MIRROR
          (relaxSweep Nx Ny
            (setBoundary Nx Ny BOUNDARY_MIRROR (computeDivergence Nx Ny velX velY div)) c))^[20]
          (setBoundary Nx Ny BOUNDARY_MIRROR (zeroPressure Nx Ny p)) :=
    foldl_range_const _ N_SOLVER_ITERS _
  rw [hit]
  rw [gradPair_split Nx Ny
    ((fun c => setBoundary Nx Ny BOUNDARY_MIRROR
        (relaxSweep Nx Ny
          (setBoundary Nx Ny BOUNDARY_MIRROR (computeDivergence Nx Ny velX velY div)) c))^[20]
      (setBoundary Nx Ny BOUNDARY_MIRROR (zeroPressure Nx Ny p))) velX velY]

/-- `diffuse` is exactly 20 iterations of (sweep, then boundary fill):
no convergence check, no early exit. -/
theorem diffuse_eq_iterate (Nx Ny : ℕ) (dt : ℚ) (cur prev : Field) (k : ℚ) (bMode : ℕ) :
    diffuse Nx Ny dt cur prev k bMode =
      (fun c => setBoundary Nx Ny bMode
        (diffuseSweep Nx Ny (dt * k * (Nx : ℚ) * (Ny : ℚ)) prev c))^[20] cur :=
  foldl_range_const _ N_SOLVER_ITERS cur

/-- Pointwise value of one `diffuse` sweep at an active cell: the west
and north neighbors are the already-updated values of the same sweep,
the east and south neighbors the values from before the sweep. -/
theorem diffuseSweep_active (Nx Ny : ℕ) (a : ℚ) (prev c : Field) (i j : ℕ)
    (hi1 : 1 ≤ i) (hi2 : i ≤ Nx) (hj1 : 1 ≤ j) (hj2 : j ≤ Ny) :
    diffuseSweep Nx Ny a prev c i j =
      (prev i j + a * (diffuseSweep Nx Ny a prev c (i-1) j + c (i+1) j +
                       diffuseSweep Nx Ny a prev c i (j-1) + c i (j+1))) / (1 + 4 * a) := by
  obtain ⟨pre, post, hsplit, hpre, hpost⟩ := activeCells_split Nx Ny i j hi1 hi2 hj1 hj2
  simp only [diffuseSweep]
  rw [hsplit]
  exact sweep_eval_gs
    (fun d i j =>
      (prev i j + a * (d (i-1) j + d (i+1) j + d i (j-1) + d i (j+1))) / (1 + 4 * a))
    (fun i j w e n s => (prev i j + a * (w + e + n + s)) / (1 + 4 * a))
    (fun _ _ _ => rfl) pre post i j hi1 hj1 hpre hpost c

/-- A `diffuse` sweep writes only active cells. -/
theorem diffuseSweep_frame (Nx Ny : ℕ) (a : ℚ) (prev c : Field) (i j : ℕ)
    (h : ¬(1 ≤ i ∧ i ≤ Nx ∧ 1 ≤ j ∧ j ≤ Ny)) :
    diffuseSweep Nx Ny a prev c i j = c i j :=
  sweep_activeCells_frame _ Nx Ny c i j h

/-- The two sequential `if` clamps of `advect` compute the clamp of the
backtracked coordinate into `[0.5, N + 0.5]`. -/
theorem clampCoord_eq (N : ℕ) (x0 : ℚ) :
    clampCoord N x0 = max (1/2) (min ((N : ℚ) + 1/2) x0) := by
  have hN : (0:ℚ) ≤ (N : ℚ) := Nat.cast_nonneg N
  simp only [clampCoord]
  split_ifs with h1 h2 h3 <;> rw [max_def, min_def] <;> split_ifs <;> linarith

/-- Pointwise value of the `advect` loop at an active cell: the bilinear
sample of `prev` at the clamped backtracked position. -/
theorem advectCore_active (Nx Ny : ℕ) (prev velX velY cur : Field) (i j : ℕ)
    (hi1 : 1 ≤ i) (hi2 : i ≤ Nx) (hj1 : 1 ≤ j) (hj2 : j ≤ Ny) :
    advectCore Nx Ny prev velX velY cur i j =
      bilinearSample prev
        (max (1/2) (min ((Nx : ℚ) + 1/2) ((i : ℚ) - (Nx : ℚ) * velX i j)))
        (max (1/2) (min ((Ny : ℚ) + 1/2) ((j : ℚ) - (Ny : ℚ) * velY i j))) := by
  obtain ⟨pre, post, hsplit, hpre, hpost⟩ := activeCells_split Nx Ny i j hi1 hi2 hj1 hj2
  simp only [advectCore]
  rw [hsplit]
  refine (sweep_eval_own
    (fun _c i j =>
      let x := clampCoord Nx ((i : ℚ) - (Nx : ℚ) * velX i j)
      let i0 := (⌊x⌋).toNat
      let i1 := i0 + 1
      let y := clampCoord Ny ((j : ℚ) - (Ny : ℚ) * velY i j)
      let j0 := (⌊y⌋).toNat
      let j1 := j0 + 1
      let s1 := x - (i0 : ℚ)
      let s0 := 1 - s1
      let t1 := y - (j0 : ℚ)
      let t0 := 1 - t1
      s0 * (t0 * prev i0 j0 + t1 * prev i0 j1) +
        s1 * (t0 * prev i1 j0 + t1 * prev i1 j1))
    (fun i j _v =>
      let x := clampCoord Nx ((i : ℚ) - (Nx : ℚ) * velX i j)
      let i0 := (⌊x⌋).toNat
      let i1 := i0 + 1
      let y := clampCoord Ny ((j : ℚ) - (Ny : ℚ) * velY i j)
      let j0 := (⌊y⌋).toNat
      let j1 := j0 + 1
      let s1 := x - (i0 : ℚ)
      let s0 := 1 - s1
      let t1 := y - (j0 : ℚ)
      let t0 := 1 - t1
      s0 * (t0 * prev i0 j0 + t1 * prev i0 j1) +
        s1 * (t0 * prev i1 j0 + t1 * prev i1 j1))
    (fun _ _ _ => rfl) pre post i j hpre hpost cur).trans ?_
  rw [bilinearSample, clampCoord_eq, clampCoord_eq]

/-- The `advect` loop writes only active cells. -/
theorem advectCore_frame (Nx Ny : ℕ) (prev velX velY cur : Field) (i j : ℕ)
    (h : ¬(1 ≤ i ∧ i ≤ Nx ∧ 1 ≤ j ∧ j ≤ Ny)) :
    advectCore Nx Ny prev velX velY cur i j = cur i j :=
  sweep_activeCells_frame _ Nx Ny cur i j h

/-- Pointwise evaluation of `addSource` on any cell of the allocated
array. -/
theorem addSource_eval (Nx Ny : ℕ) (dt : ℚ) (dest source : Field) (i j : ℕ)
    (hi : i < Nx + 2) (hj : j < Ny + 2) :
    addSource Nx Ny dt dest source i j = dest i j + dt * source i j := by
  obtain ⟨pre, post, hsplit, hpre, hpost⟩ := allCells_split Nx Ny i j hi hj
  simp only [addSource]
  rw [hsplit]
  exact sweep_eval_own (fun c i j => c i j + dt * source i j)
    (fun i j v => v + dt * source i j) (fun _ _ _ => rfl) pre post i j hpre hpost dest

/-- `addSource` writes nothing outside the allocated array. -/
theorem addSource_frame (Nx Ny : ℕ) (dt : ℚ) (dest source : Field) (a b : ℕ)
    (h : ¬(a < Nx + 2 ∧ b < Ny + 2)) :
    addSource Nx Ny dt dest source a b = dest a b := by
  exact sweep_not_mem _ _ dest a b (by rw [mem_allCells]; exact h)

theorem clampCoord_lb (N : ℕ) (x0 : ℚ) : 1/2 ≤ clampCoord N x0 := by
  rw [clampCoord_eq]
  exact le_max_left _ _

theorem clampCoord_ub (N : ℕ) (x0 : ℚ) : clampCoord N x0 ≤ (N : ℚ) + 1/2 := by
  have hN : (0:ℚ) ≤ (N : ℚ) := Nat.cast_nonneg N
  rw [clampCoord_eq]
  exact max_le (by linarith) (min_le_left _ _)

/-- C1: `project`, given a velocity field and a two-field scratch
buffer, (a) writes the central-difference divergence (scaled by
`Lx = 1/Nx`, `Ly = 1/Ny`) into the divergence buffer at every active
cell, (b) zeroes the pressure buffer at every active cell, (c) applies
the MIRROR boundary fill to both buffers, (d) runs exactly 20
Gauss-Seidel sweeps of
`p[i][j] = (div[i][j] + p[i-1][j] + p[i+1][j] + p[i][j-1] + p[i][j+1]) / 4`
with a MIRROR fill after each sweep, (e) subtracts the pressure
gradient from both velocity components at every active cell, and (f)
finishes with an OPPOSE_X fill on `velX` and an OPPOSE_Y fill on `velY`,
in exactly that order: `project` equals the staged pipeline
`projectPhases` built from those six phases. -/
theorem claim_C1_project_pipeline (Nx Ny : ℕ) (velX velY p div : Field) :
    project Nx Ny velX velY p div = projectPhases Nx Ny velX velY p div :=
  project_eq_phases Nx Ny velX velY p div

/-- C2: `diffuse(cur, prev, k, bMode)` performs exactly 20 relaxation
sweeps with no convergence check and no early exit — it is the
20-fold iterate of (sweep, then boundary fill with `bMode`) — where
each sweep updates every active cell in place as
`cur[i][j] = (prev[i][j] + a*(cur[i-1][j] + cur[i+1][j] + cur[i][j-1] + cur[i][j+1])) / (1 + 4a)`
with `a = timeStep * k * Nx * Ny`, reading partially updated neighbor
values from the same sweep (under the row-major order the west and
north neighbor reads see the values already updated in this sweep, the
east and south reads the values from before it). -/
theorem claim_C2_diffuse_gauss_seidel (Nx Ny : ℕ) (dt k : ℚ) (cur prev c : Field)
    (bMode i j : ℕ) (hi1 : 1 ≤ i) (hi2 : i ≤ Nx) (hj1 : 1 ≤ j) (hj2 : j ≤ Ny) :
    diffuse Nx Ny dt cur prev k bMode =
      (fun d => setBoundary Nx Ny bMode
        (diffuseSweep Nx Ny (dt * k * (Nx : ℚ) * (Ny : ℚ)) prev d))^[20] cur
    ∧ diffuseSweep Nx Ny (dt * k * (Nx : ℚ) * (Ny : ℚ)) prev c i j =
        (prev i j + (dt * k * (Nx : ℚ) * (Ny : ℚ)) *
          (diffuseSweep Nx Ny (dt * k * (Nx : ℚ) * (Ny : ℚ)) prev c (i-1) j + c (i+1) j +
           diffuseSweep Nx Ny (dt * k * (Nx : ℚ) * (Ny : ℚ)) prev c i (j-1) + c i (j+1)))
        / (1 + 4 * (dt * k * (Nx : ℚ) * (Ny : ℚ))) :=
  ⟨diffuse_eq_iterate Nx Ny dt cur prev k bMode,
   diffuseSweep_active Nx Ny (dt * k * (Nx : ℚ) * (Ny : ℚ)) prev c i j hi1 hi2 hj1 hj2⟩

theorem claim_C2_witness :
    diffuse 1 1 (1 : ℚ) zeroField zeroField (1 : ℚ) 0 =
      (fun d => setBoundary 1 1 0
        (diffuseSweep 1 1 ((1:ℚ) * 1 * ((1:ℕ) : ℚ) * ((1:ℕ) : ℚ)) zeroField d))^[20] zeroField
    ∧ diffuseSweep 1 1 ((1:ℚ) * 1 * ((1:ℕ) : ℚ) * ((1:ℕ) : ℚ)) zeroField zeroField 1 1 =
        (zeroField 1 1 + ((1:ℚ) * 1 * ((1:ℕ) : ℚ) * ((1:ℕ) : ℚ)) *
          (diffuseSweep 1 1 ((1:ℚ) * 1 * ((1:ℕ) : ℚ) * ((1:ℕ) : ℚ)) zeroField zeroField 0 1
           + zeroField 2 1 +
           diffuseSweep 1 1 ((1:ℚ) * 1 * ((1:ℕ) : ℚ) * ((1:ℕ) : ℚ)) zeroField zeroField 1 0
           + zeroField 1 2))
        / (1 + 4 * ((1:ℚ) * 1 * ((1:ℕ) : ℚ) * ((1:ℕ) : ℚ))) :=
  claim_C2_diffuse_gauss_seidel 1 1 1 1 zeroField zeroField zeroField 0 1 1
    (by decide) (by decide) (by decide) (by decide)

/-- C3: `advect(cur, prev, vel, bMode)` writes, for every active cell
`(i, j)`, the bilinear interpolation of `prev` at the backtracked
position `(i - Nx*velX[i][j], j - Ny*velY[i][j])`, each coordinate
first clamped into `[0.5, N + 0.5]` on its axis, the lower sample index
being the floor of the clamped coordinate and the four surrounding
cells combined with weights from the fractional remainder; afterwards
the boundary fill with mode `bMode` is applied to `cur`. -/
theorem claim_C3_advect_backtrace (Nx Ny : ℕ) (prev velX velY cur : Field)
    (bMode i j : ℕ) (hi1 : 1 ≤ i) (hi2 : i ≤ Nx) (hj1 : 1 ≤ j) (hj2 : j ≤ Ny) :
    advect Nx Ny prev velX velY bMode cur =
      setBoundary Nx Ny bMode (advectCore Nx Ny prev velX velY cur)
    ∧ advectCore Nx Ny prev velX velY cur i j =
        bilinearSample prev
          (max (1/2) (min ((Nx : ℚ) + 1/2) ((i : ℚ) - (Nx : ℚ) * velX i j)))
          (max (1/2) (min ((Ny : ℚ) + 1/2) ((j : ℚ) - (Ny : ℚ) * velY i j))) :=
  ⟨rfl, advectCore_active Nx Ny prev velX velY cur i j hi1 hi2 hj1 hj2⟩

theorem claim_C3_witness :
    advect 2 2 rampField rampField zeroField 0 zeroField =
      setBoundary 2 2 0 (advectCore 2 2 rampField rampField zeroField zeroField)
    ∧ advectCore 2 2 rampField rampField zeroField zeroField 1 2 =
        bilinearSample rampField
          (max (1/2) (min (((2:ℕ) : ℚ) + 1/2) (((1:ℕ) : ℚ) - ((2:ℕ) : ℚ) * rampField 1 2)))
          (max (1/2) (min (((2:ℕ) : ℚ) + 1/2) (((2:ℕ) : ℚ) - ((2:ℕ) : ℚ) * zeroField 1 2))) :=
  claim_C3_advect_backtrace 2 2 rampField rampField zeroField zeroField 0 1 2
    (by decide) (by decide) (by decide) (by decide)

/-- C4: after `setBoundary(field, mode)` returns, for every active `j`
the left border cell equals minus its active neighbor exactly under
OPPOSE_X and equals it otherwise, and likewise on the right; the
symmetric statement holds for the bottom/top border rows with OPPOSE_Y;
and each of the four corners equals the average of its two adjacent
edge cells, regardless of mode. -/
theorem claim_C4_boundary_values (Nx Ny mode : ℕ) (X : Field) (i j : ℕ)
    (hNx : 1 ≤ Nx) (hNy : 1 ≤ Ny)
    (hi1 : 1 ≤ i) (hi2 : i ≤ Nx) (hj1 : 1 ≤ j) (hj2 : j ≤ Ny) :
    (setBoundary Nx Ny mode X 0 j =
      (if mode = BOUNDARY_OPPOSE_X then -(setBoundary Nx Ny mode X 1 j)
       else setBoundary Nx Ny mode X 1 j))
    ∧ (setBoundary Nx Ny mode X (Nx + 1) j =
      (if mode = BOUNDARY_OPPOSE_X then -(setBoundary Nx Ny mode X Nx j)
       else setBoundary Nx Ny mode X Nx j))
    ∧ (setBoundary Nx Ny mode X i 0 =
      (if mode = BOUNDARY_OPPOSE_Y then -(setBoundary Nx Ny mode X i 1)
       else setBoundary Nx Ny mode X i 1))
    ∧ (setBoundary Nx Ny mode X i (Ny + 1) =
      (if mode = BOUNDARY_OPPOSE_Y then -(setBoundary Nx Ny mode X i Ny)
       else setBoundary Nx Ny mode X i Ny))
    ∧ setBoundary Nx Ny mode X 0 0 =
        (1/2) * (setBoundary Nx Ny mode X 1 0 + setBoundary Nx Ny mode X 0 1)
    ∧ setBoundary Nx Ny mode X 0 (Ny + 1) =
        (1/2) * (setBoundary Nx Ny mode X 1 (Ny + 1) + setBoundary Nx Ny mode X 0 Ny)
    ∧ setBoundary Nx Ny mode X (Nx + 1) 0 =
        (1/2) * (setBoundary Nx Ny mode X Nx 0 + setBoundary Nx Ny mode X (Nx + 1) 1)
    ∧ setBoundary Nx Ny mode X (Nx + 1) (Ny + 1) =
        (1/2) * (setBoundary Nx Ny mode X Nx (Ny + 1) + setBoundary Nx Ny mode X (Nx + 1) Ny) := by
  refine ⟨?_, ?_, ?_, ?_, ?_, ?_, ?_, ?_⟩
  · rw [setBoundary_left Nx Ny mode X j hNx hj1 hj2,
      setBoundary_active Nx Ny mode X 1 j (by omega) hNx hj1 hj2]
  · rw [setBoundary_right Nx Ny mode X j hNx hj1 hj2,
      setBoundary_active Nx Ny mode X Nx j hNx (by omega) hj1 hj2]
  · rw [setBoundary_bottom Nx Ny mode X i hNy hi1 hi2,
      setBoundary_active Nx Ny mode X i 1 hi1 hi2 (by omega) hNy]
  · rw [setBoundary_top Nx Ny mode X i hNy hi1 hi2,
      setBoundary_active Nx Ny mode X i Ny hi1 hi2 hNy (by omega)]
  · exact setBoundary_corner00 Nx Ny mode X hNx hNy
  · exact setBoundary_corner01 Nx Ny mode X hNx hNy
  · exact setBoundary_corner10 Nx Ny mode X hNx hNy
  · exact setBoundary_corner11 Nx Ny mode X hNx hNy

theorem claim_C4_witness :
    (setBoundary 1 1 BOUNDARY_OPPOSE_X rampField 0 1 =
      (if BOUNDARY_OPPOSE_X = BOUNDARY_OPPOSE_X
       then -(setBoundary 1 1 BOUNDARY_OPPOSE_X rampField 1 1)
       else setBoundary 1 1 BOUNDARY_OPPOSE_X rampField 1 1))
    ∧ (setBoundary 1 1 BOUNDARY_OPPOSE_X rampField (1 + 1) 1 =
      (if BOUNDARY_OPPOSE_X = BOUNDARY_OPPOSE_X
       then -(setBoundary 1 1 BOUNDARY_OPPOSE_X rampField 1 1)
       else setBoundary 1 1 BOUNDARY_OPPOSE_X rampField 1 1))
    ∧ (setBoundary 1 1 BOUNDARY_OPPOSE_X rampField 1 0 =
      (if BOUNDARY_OPPOSE_X = BOUNDARY_OPPOSE_Y
       then -(setBoundary 1 1 BOUNDARY_OPPOSE_X rampField 1 1)
       else setBoundary 1 1 BOUNDARY_OPPOSE_X rampField 1 1))
    ∧ (setBoundary 1 1 BOUNDARY_OPPOSE_X rampField 1 (1 + 1) =
      (if BOUNDARY_OPPOSE_X = BOUNDARY_OPPOSE_Y
       then -(setBoundary 1 1 BOUNDARY_OPPOSE_X rampField 1 1)
       else setBoundary 1 1 BOUNDARY_OPPOSE_X rampField 1 1))
    ∧ setBoundary 1 1 BOUNDARY_OPPOSE_X rampField 0 0 =
        (1/2) * (setBoundary 1 1 BOUNDARY_OPPOSE_X rampField 1 0
                 + setBoundary 1 1 BOUNDARY_OPPOSE_X rampField 0 1)
    ∧ setBoundary 1 1 BOUNDARY_OPPOSE_X rampField 0 (1 + 1) =
        (1/2) * (setBoundary 1 1 BOUNDARY_OPPOSE_X rampField 1 (1 + 1)
                 + setBoundary 1 1 BOUNDARY_OPPOSE_X rampField 0 1)
    ∧ setBoundary 1 1 BOUNDARY_OPPOSE_X rampField (1 + 1) 0 =
        (1/2) * (setBoundary 1 1 BOUNDARY_OPPOSE_X rampField 1 0
                 + setBoundary 1 1 BOUNDARY_OPPOSE_X rampField (1 + 1) 1)
    ∧ setBoundary 1 1 BOUNDARY_OPPOSE_X rampField (1 + 1) (1 + 1) =
        (1/2) * (setBoundary 1 1 BOUNDARY_OPPOSE_X rampField 1 (1 + 1)
                 + setBoundary 1 1 BOUNDARY_OPPOSE_X rampField (1 + 1) 1) :=
  claim_C4_boundary_values 1 1 BOUNDARY_OPPOSE_X rampField 1 1
    (by decide) (by decide) (by decide) (by decide) (by decide) (by decide)

/-- C5: `vStep()` performs, in exactly this order: for each dimension,
add the previous velocity buffer and the persistent velocity source
into the current velocity buffer; swap current and previous velocity;
diffuse each component against the viscosity constant with boundary
mode equal to the dimension index plus one (X uses OPPOSE_X, Y uses
OPPOSE_Y); project; swap again; advect each component through the
current velocity field with the same per-dimension mode; project once
more.  The Grid (buffers, `swapV`, dimension count) is modelled from
the spec as two-dimensional because `grid.js` is not among the
analyzed sources. -/
theorem claim_C5_vstep_order (Nx Ny : ℕ) (dt visc : ℚ) (srcX srcY : Field)
    (s : VelState) :
    vStep Nx Ny dt visc srcX srcY s = vStepPhases Nx Ny dt visc srcX srcY s := by
  simp only [vStep, vStepPhases, addVelSources, diffuseVel, projectVel, advectVel, swapV,
    BOUNDARY_OPPOSE_X, BOUNDARY_OPPOSE_Y]

/-- C6: `addSource(dest, source)` adds `timeStep` times the
corresponding source value to every cell of `dest`, including every
boundary cell (indices `0` and `N+1` on each axis), and modifies no
other state. -/
theorem claim_C6_add_source (Nx Ny : ℕ) (dt : ℚ) (dest source : Field) (i j a b : ℕ)
    (hi : i < Nx + 2) (hj : j < Ny + 2) (hab : ¬(a < Nx + 2 ∧ b < Ny + 2)) :
    addSource Nx Ny dt dest source i j = dest i j + dt * source i j
    ∧ addSource Nx Ny dt dest source a b = dest a b :=
  ⟨addSource_eval Nx Ny dt dest source i j hi hj,
   addSource_frame Nx Ny dt dest source a b hab⟩

theorem claim_C6_witness :
    addSource 1 1 (1/2) rampField rampField 2 0 = rampField 2 0 + 1/2 * rampField 2 0
    ∧ addSource 1 1 (1/2) rampField rampField 5 5 = rampField 5 5 :=
  claim_C6_add_source 1 1 (1/2) rampField rampField 2 0 5 5
    (by decide) (by decide) (by decide)

/-- C7 (counterexample): constructing a `Simulator` with an invalid
configuration — a negative time step and negative diffusion and
viscosity constants, at grid resolution 24 — does not fail with a
configuration error and does not clamp: construction succeeds with the
invalid values stored verbatim.  Conversely a perfectly valid
configuration at resolution 5 fails, with a TypeError from the
hard-coded out-of-bounds demo-source write, not with a configuration
check — so construction neither validates nor fails fast on invalid
parameters. -/
theorem claim_C7_counterexample :
    SimulatorNew 24 640 480 (-1) (-1) (-1) =
      some { diff := -1, visc := -1, timeStep := -1,
             gridDims := (24, 24, 1), gridSize := (640, 480, 0),
             vSrc := fun d a b c => if d = 0 ∧ a = 5 ∧ b = 25 ∧ c = 1 then 500 else 0 }
    ∧ SimulatorNew 5 640 480 (1/10) (1/10) (1/100) = none := by
  constructor
  · rw [SimulatorNew, if_pos (by omega)]
  · rw [SimulatorNew, if_neg (by omega)]

/-- C7 (amended): construction of
`Simulator(N, width, height, visc, diff, timeStep)` performs no
configuration validation.  Whenever the hard-coded demo-source write
`v_src[X_DIM][5][25][1] = 500` is in bounds (`N ≥ 24`), construction
succeeds for arbitrary numeric arguments — including non-positive time
steps and negative diffusion or viscosity — storing the given values
unchanged (no configuration error, no clamping); for `N ≤ 23`,
including valid positive resolutions, construction instead fails with
a TypeError from that out-of-bounds write, which is not a
configuration check. -/
theorem claim_C7_no_validation (N : ℕ) (width height visc diff timeStep : ℚ) :
    (24 ≤ N →
      SimulatorNew N width height visc diff timeStep =
        some { diff := diff, visc := visc, timeStep := timeStep,
               gridDims := (N, N, 1), gridSize := (width, height, 0),
               vSrc := fun d a b c => if d = 0 ∧ a = 5 ∧ b = 25 ∧ c = 1 then 500 else 0 })
    ∧ (N < 24 → SimulatorNew N width height visc diff timeStep = none) := by
  constructor
  · intro h
    rw [SimulatorNew, if_pos (by omega)]
  · intro h
    rw [SimulatorNew, if_neg (by omega)]

theorem claim_C7_witness :
    (SimulatorNew 24 640 480 (1/10) (1/5) (1/100) =
      some { diff := 1/5, visc := 1/10, timeStep := 1/100,
             gridDims := (24, 24, 1), gridSize := (640, 480, 0),
             vSrc := fun d a b c => if d = 0 ∧ a = 5 ∧ b = 25 ∧ c = 1 then 500 else 0 })
    ∧ SimulatorNew 3 640 480 (1/10) (1/5) (1/100) = none :=
  ⟨(claim_C7_no_validation 24 640 480 (1/10) (1/5) (1/100)).1 (by decide),
   (claim_C7_no_validation 3 640 480 (1/10) (1/5) (1/100)).2 (by decide)⟩

/-- C8: in `advect`, for every velocity value and every cell, the lower
sample index derived from the clamped backtracked coordinate (the floor
of `clampCoord N (pos - N * v)`) is nonnegative and at most `N`, and
the upper sample index (that floor plus one) is at most `N + 1`, so
every `prev` access of `advect` stays inside the allocated
`(N+2)`-per-axis field. -/
theorem claim_C8_advect_indices (N pos : ℕ) (v : ℚ) :
    0 ≤ ⌊clampCoord N ((pos : ℚ) - (N : ℚ) * v)⌋
    ∧ (⌊clampCoord N ((pos : ℚ) - (N : ℚ) * v)⌋).toNat ≤ N
    ∧ (⌊clampCoord N ((pos : ℚ) - (N : ℚ) * v)⌋).toNat + 1 ≤ N + 1 := by
  have h1 : 1/2 ≤ clampCoord N ((pos : ℚ) - (N : ℚ) * v) := clampCoord_lb N _
  have h2 : clampCoord N ((pos : ℚ) - (N : ℚ) * v) ≤ (N : ℚ) + 1/2 := clampCoord_ub N _
  have hf0 : 0 ≤ ⌊clampCoord N ((pos : ℚ) - (N : ℚ) * v)⌋ := by
    rw [Int.le_floor]
    push_cast
    linarith
  have hfN : ⌊clampCoord N ((pos : ℚ) - (N : ℚ) * v)⌋ < (N : ℤ) + 1 := by
    rw [Int.floor_lt]
    push_cast
    linarith
  exact ⟨hf0, Int.toNat_le.mpr (by omega), by
    have := Int.toNat_le.mpr (show ⌊clampCoord N ((pos : ℚ) - (N : ℚ) * v)⌋ ≤ (N : ℤ) by omega)
    omega⟩

/-- C9: advection with an identically zero velocity field is the
identity on active cells: for every `prev` field and boundary mode,
`advect(cur, prev, vel, bMode)` with `vel = 0` writes
`cur[i][j] = prev[i][j]` at every active cell. -/
theorem claim_C9_advect_zero_identity (Nx Ny : ℕ) (prev velX velY cur : Field)
    (bMode i j : ℕ) (hvx : ∀ a b, velX a b = 0) (hvy : ∀ a b, velY a b = 0)
    (hi1 : 1 ≤ i) (hi2 : i ≤ Nx) (hj1 : 1 ≤ j) (hj2 : j ≤ Ny) :
    advect Nx Ny prev velX velY bMode cur i j = prev i j := by
  rw [advect, setBoundary_active Nx Ny bMode _ i j hi1 hi2 hj1 hj2,
    advectCore_active Nx Ny prev velX velY cur i j hi1 hi2 hj1 hj2, hvx, hvy]
  have hxi : max (1/2) (min ((Nx : ℚ) + 1/2) ((i : ℚ) - (Nx : ℚ) * 0)) = (i : ℚ) := by
    have hiN : (i : ℚ) ≤ (Nx : ℚ) := Nat.cast_le.mpr hi2
    have hi1' : (1 : ℚ) ≤ (i : ℚ) := by exact_mod_cast hi1
    rw [mul_zero, sub_zero, min_eq_right (by linarith), max_eq_right (by linarith)]
  have hyj : max (1/2) (min ((Ny : ℚ) + 1/2) ((j : ℚ) - (Ny : ℚ) * 0)) = (j : ℚ) := by
    have hjN : (j : ℚ) ≤ (Ny : ℚ) := Nat.cast_le.mpr hj2
    have hj1' : (1 : ℚ) ≤ (j : ℚ) := by exact_mod_cast hj1
    rw [mul_zero, sub_zero, min_eq_right (by linarith), max_eq_right (by linarith)]
  rw [hxi, hyj]
  simp only [bilinearSample, Int.floor_natCast, Int.toNat_natCast, sub_self]
  ring

theorem claim_C9_witness :
    advect 2 2 rampField zeroField zeroField 0 zeroField 1 2 = rampField 1 2 :=
  claim_C9_advect_zero_identity 2 2 rampField zeroField zeroField zeroField 0 1 2
    (fun _ _ => rfl) (fun _ _ => rfl) (by decide) (by decide) (by decide) (by decide)

/-- C10: `setBoundary(field, mode)` writes only boundary cells: every
active cell keeps its value, for every field and every mode. -/
theorem claim_C10_boundary_frame (Nx Ny mode : ℕ) (X : Field) (i j : ℕ)
    (hi1 : 1 ≤ i) (hi2 : i ≤ Nx) (hj1 : 1 ≤ j) (hj2 : j ≤ Ny) :
    setBoundary Nx Ny mode X i j = X i j :=
  setBoundary_active Nx Ny mode X i j hi1 hi2 hj1 hj2

theorem claim_C10_witness :
    setBoundary 2 2 BOUNDARY_OPPOSE_Y rampField 2 1 = rampField 2 1 :=
  claim_C10_boundary_frame 2 2 BOUNDARY_OPPOSE_Y rampField 2 1
    (by decide) (by decide) (by decide) (by decide)

end FluidSolver

